import Mathlib

/- Shallow embedding of src/app.py, a chess-leaderboard dashboard script.
   Numeric dataframe cells are modelled as Option ℚ: pandas
   to_numeric(errors="coerce") leaves either a parsed number or a null marker
   in each cell, and every later pandas operation the script performs acts
   elementwise on those cells.  String cells (player, model, prompt) are plain
   strings.  Column-wise mask assignments of the script are per-cell
   operations, so each one is embedded as a map over the list of rows. -/

namespace App

/-- One row of the working dataframe after column-name normalization and
numeric coercion (app.py lines 37-45): each of the six numeric columns holds
either a parsed number or a null marker. -/
structure Row where
  player : String
  final_standing : Option ℚ
  win_rate : Option ℚ
  wins : Option ℚ
  losses : Option ℚ
  games : Option ℚ
  mu_rating : Option ℚ
  model : String
  prompt : String
deriving DecidableEq

/-- Round half to even on exact rationals: the rounding performed by
Series.round() (numpy rounding) in app.py line 60. -/
def roundHalfEven (q : ℚ) : ℤ :=
  if 2 * (q - ⌊q⌋) = 1 then (if ⌊q⌋ % 2 = 0 then ⌊q⌋ else ⌊q⌋ + 1) else round q

/-- Line 48: df.loc[df["win_rate"] > 1, "win_rate"] = df["win_rate"] / 100.0.
A null cell compares false, so only present values above 1 are rescaled. -/
def normalizeRow (r : Row) : Row :=
  { r with win_rate := r.win_rate.map (fun w => if 1 < w then w / 100 else w) }

/-- The Schema Normalizer step relevant to the numeric pipeline (line 48),
applied to the whole table. -/
def normalizeTable (t : List Row) : List Row := t.map normalizeRow

/-- Lines 59-60: where wins is null and games and win_rate are present,
wins := round(games * win_rate) cast to integer. -/
def fillWins (r : Row) : Row :=
  match r.wins, r.games, r.win_rate with
  | none, some g, some wr => { r with wins := some ((roundHalfEven (g * wr) : ℤ) : ℚ) }
  | _, _, _ => r

/-- Lines 63-64: where losses is null and games and wins are present,
losses := games - wins. -/
def fillLosses (r : Row) : Row :=
  match r.losses, r.games, r.wins with
  | none, some g, some w => { r with losses := some (g - w) }
  | _, _, _ => r

/-- Lines 67-68: where games is null and wins and losses are present,
games := wins + losses. -/
def fillGames (r : Row) : Row :=
  match r.games, r.wins, r.losses with
  | none, some w, some l => { r with games := some (w + l) }
  | _, _, _ => r

/-- Lines 71-72: where win_rate is null, wins and games are present and
games > 0, win_rate := wins / games. -/
def fillWinRate (r : Row) : Row :=
  match r.win_rate, r.wins, r.games with
  | none, some w, some g => if 0 < g then { r with win_rate := some (w / g) } else r
  | _, _, _ => r

/-- Lines 74-76: fillna(0) over the six numeric columns. -/
def zeroFillRow (r : Row) : Row :=
  { r with
    wins := some (r.wins.getD 0)
    losses := some (r.losses.getD 0)
    games := some (r.games.getD 0)
    win_rate := some (r.win_rate.getD 0)
    mu_rating := some (r.mu_rating.getD 0)
    final_standing := some (r.final_standing.getD 0) }

/-- The Statistic Inferencer on one row: the four fill rules in source order
followed by the zero fill. -/
def inferRow (r : Row) : Row :=
  zeroFillRow (fillWinRate (fillGames (fillLosses (fillWins r))))

/-- The Statistic Inferencer as the script runs it (lines 58-76): each mask
assignment is an elementwise pass over the table, the next mask being computed
after the previous assignment has landed. -/
def inferTable (t : List Row) : List Row :=
  ((((t.map fillWins).map fillLosses).map fillGames).map fillWinRate).map zeroFillRow

/-- The five sort keys offered by the sidebar selectbox (line 97). -/
inductive SortKey where
  | finalStanding
  | winRate
  | muRating
  | wins
  | losses
deriving DecidableEq

/-- The column value a sort key selects.  After the Inferencer every numeric
cell is present, so the default for a null cell is never exercised on
pipeline output. -/
def sortKeyValue : SortKey → Row → ℚ
  | SortKey.finalStanding, r => r.final_standing.getD 0
  | SortKey.winRate, r => r.win_rate.getD 0
  | SortKey.muRating, r => r.mu_rating.getD 0
  | SortKey.wins, r => r.wins.getD 0
  | SortKey.losses, r => r.losses.getD 0

/-- Line 101: ascending = sort_option in ["Final Standing", "Losses"]. -/
def sortAscending (k : SortKey) : Bool :=
  decide (k = SortKey.finalStanding) || decide (k = SortKey.losses)

/-- The row comparison the sort uses for a given key and its direction. -/
def sortLe (k : SortKey) (a b : Row) : Bool :=
  if sortAscending k then decide (sortKeyValue k a ≤ sortKeyValue k b)
  else decide (sortKeyValue k b ≤ sortKeyValue k a)

/-- Line 102: df.sort_values(by=sort_option, ascending=ascending), a sort of
the rows by the selected key in the selected direction.  The call leaves the
default kind="quicksort", so once a table exceeds the 16-element
insertion-sort cutoff of the underlying introsort the source fixes no tie
order: only sortedness and being a permutation of the input are guaranteed.
The embedding is a stable merge sort: it agrees with the source on every
guarantee the source makes, and its tie order is the one the spec's View
Builder contract prescribes, i.e. the kind="stable" repair of this line.
Every theorem below uses only the shared guarantees (sortedness,
permutation) except the C4 theorem, which states the prescribed stable
behavior that the shipped default does not honor. -/
def sortTable (k : SortKey) (t : List Row) : List Row :=
  t.mergeSort (sortLe k)

/-- Lines 105-109: when pin_choice is not the sentinel "None", the rows whose
player equals pin_choice are concatenated in front of the remaining rows, both
groups in their prior order; otherwise the table is untouched. -/
def pinTable (pin_choice : String) (t : List Row) : List Row :=
  if pin_choice = "None" then t
  else t.filter (fun r => r.player == pin_choice) ++
       t.filter (fun r => r.player != pin_choice)

/-- The full table pipeline feeding the display and the KPIs: normalize,
infer, sort, pin (lines 37-109; the renaming to display labels on lines 79-89
only changes column labels, not row contents or order). -/
def buildView (k : SortKey) (pin_choice : String) (t : List Row) : List Row :=
  pinTable pin_choice (sortTable k (inferTable (normalizeTable t)))

/-- Line 115: player count KPI, len(df). -/
def playersCount (t : List Row) : ℕ := t.length

/-- Line 116: total games KPI, df["Games"].sum(). -/
def totalGames (t : List Row) : ℚ := (t.map (fun r => r.games.getD 0)).sum

/-- Sum of the Wins column, df["Wins"].sum() on line 117. -/
def totalWins (t : List Row) : ℚ := (t.map (fun r => r.wins.getD 0)).sum

/-- Line 117: avg_wr = (Wins.sum / Games.sum) if Games.sum else 0.  The
condition is numeric truthiness, i.e. the sum being nonzero. -/
def avgWinRate (t : List Row) : ℚ :=
  if totalGames t = 0 then 0 else totalWins t / totalGames t

/-- Line 119: number of rows with Win Rate >= 0.8. -/
def highWinRateCount (t : List Row) : ℕ :=
  t.countP (fun r => decide ((4 / 5 : ℚ) ≤ r.win_rate.getD 0))

/-- The four row-highlight outcomes of highlight_row (lines 124-131). -/
inductive Style where
  | pinned
  | topThree
  | highPerformer
  | noStyle
deriving DecidableEq

/-- Truncation toward zero: Python int() applied to a numeric value. -/
def truncQ (q : ℚ) : ℤ := if 0 ≤ q then ⌊q⌋ else ⌈q⌉

/-- Lines 124-131: the row-highlight classifier, first match wins.  Rule 2 is
int(Final Standing) <= 3 with no lower bound in the source. -/
def highlight_row (pin_choice : String) (row : Row) : Style :=
  if pin_choice ≠ "None" ∧ row.player = pin_choice then Style.pinned
  else if truncQ (row.final_standing.getD 0) ≤ 3 then Style.topThree
  else if (4 / 5 : ℚ) ≤ row.win_rate.getD 0 then Style.highPerformer
  else Style.noStyle

/-- The demo dataset of lines 24-30 (wins and losses columns absent, hence
null after normalization). -/
def demoTable : List Row :=
  [⟨"Alpha", some 1, some (92 / 100), none, none, some 25, some 2100,
    "Claude 3.5 Sonnet", "Careful positional play."⟩,
   ⟨"Bravo", some 3, some (78 / 100), none, none, some 27, some 1980,
    "Claude 3 Opus", "Dynamic attacking style."⟩,
   ⟨"Charlie", some 5, some (65 / 100), none, none, some 26, some 1850,
    "Claude 3 Haiku", "Stable and defensive."⟩,
   ⟨"Delta", some 2, some (84 / 100), none, none, some 24, some 2050,
    "Claude 3.5 Sonnet", "Balanced tactics and strategy."⟩,
   ⟨"Echo", some 4, some (81 / 100), none, none, some 23, some 1995,
    "Claude 3 Sonnet", "Exploiting weak squares."⟩]

/-- A row carrying only the four inferable statistics; the remaining fields
are fixed neutral values.  Used to state concrete instances. -/
def statRow (w l g wr : Option ℚ) : Row :=
  ⟨"", none, wr, w, l, g, none, "", ""⟩

/-- The four statistic cells of a row, in the order wins, losses, games,
win_rate. -/
def fourStats (r : Row) : Option ℚ × Option ℚ × Option ℚ × Option ℚ :=
  (r.wins, r.losses, r.games, r.win_rate)

/-- Zero fill restricted to the four statistic columns, as the spec's rule 5
words it. -/
def zeroFillStats (r : Row) : Row :=
  { r with
    wins := some (r.wins.getD 0)
    losses := some (r.losses.getD 0)
    games := some (r.games.getD 0)
    win_rate := some (r.win_rate.getD 0) }

/-- The Statistic Inferencer as the spec words it, rule by rule in precedence
order 1-5, each rule firing only where its inputs are present and its target
missing, later rules seeing earlier fills.  Stated independently of the
source embedding for comparison with inferTable. -/
def specInferRow (r : Row) : Row :=
  let r1 := if r.wins = none ∧ r.games ≠ none ∧ r.win_rate ≠ none then
    { r with wins := some ((roundHalfEven (r.games.getD 0 * r.win_rate.getD 0) : ℤ) : ℚ) }
    else r
  let r2 := if r1.losses = none ∧ r1.games ≠ none ∧ r1.wins ≠ none then
    { r1 with losses := some (r1.games.getD 0 - r1.wins.getD 0) } else r1
  let r3 := if r2.games = none ∧ r2.wins ≠ none ∧ r2.losses ≠ none then
    { r2 with games := some (r2.wins.getD 0 + r2.losses.getD 0) } else r2
  let r4 := if r3.win_rate = none ∧ r3.wins ≠ none ∧ r3.games ≠ none ∧ 0 < r3.games.getD 0 then
    { r3 with win_rate := some (r3.wins.getD 0 / r3.games.getD 0) } else r3
  zeroFillStats r4

/-- The highlight classifier as the claim words it: rule 2 additionally
requires Final Standing > 0, excluding the 0 no-data sentinel. -/
def specHighlight (pin_choice : String) (row : Row) : Style :=
  if pin_choice ≠ "None" ∧ row.player = pin_choice then Style.pinned
  else if truncQ (row.final_standing.getD 0) ≤ 3 ∧ 0 < truncQ (row.final_standing.getD 0) then
    Style.topThree
  else if (4 / 5 : ℚ) ≤ row.win_rate.getD 0 then Style.highPerformer
  else Style.noStyle

/-- The highlight classifier as the amended claim words it: rule 2 is only
int(Final Standing) <= 3, so the 0 sentinel (and any negative value) is also
a top-three row. -/
def specHighlightAmended (pin_choice : String) (row : Row) : Style :=
  if pin_choice ≠ "None" ∧ row.player = pin_choice then Style.pinned
  else if truncQ (row.final_standing.getD 0) ≤ 3 then Style.topThree
  else if (4 / 5 : ℚ) ≤ row.win_rate.getD 0 then Style.highPerformer
  else Style.noStyle

/-- The average win rate KPI as the claim words it: the quotient when the
games total is strictly positive, 0 otherwise. -/
def specAvgWinRate (t : List Row) : ℚ :=
  if 0 < totalGames t then totalWins t / totalGames t else 0

/-- The average win rate KPI as the amended claim words it: the quotient when
the games total is nonzero, 0 otherwise. -/
def specAvgWinRateAmended (t : List Row) : ℚ :=
  if totalGames t ≠ 0 then totalWins t / totalGames t else 0

/-- A rational that is the embedding of a natural number: the shape of a sane
count cell (wins, losses, games, final_standing). -/
def isNatValue (x : ℚ) : Prop := ∃ n : ℕ, x = (n : ℚ)

/-- Sanity of one uploaded row after numeric coercion, before the pipeline:
every present count cell is a nonnegative integer, a present win_rate lies in
[0, 100] (fraction or percentage scale), and present wins do not exceed
present games. -/
def isCleanRow (r : Row) : Prop :=
  (∀ x ∈ r.final_standing, isNatValue x)
  ∧ (∀ x ∈ r.wins, isNatValue x)
  ∧ (∀ x ∈ r.losses, isNatValue x)
  ∧ (∀ x ∈ r.games, isNatValue x)
  ∧ (∀ x ∈ r.win_rate, 0 ≤ x ∧ x ≤ 100)
  ∧ (∀ w ∈ r.wins, ∀ g ∈ r.games, w ≤ g)

/-- Intermediate invariant maintained between the Normalizer and each fill
rule: present count cells are nonnegative integers, a present win_rate lies in
[0, 1], and present wins do not exceed present games. -/
def midInv (r : Row) : Prop :=
  (∀ x ∈ r.final_standing, isNatValue x)
  ∧ (∀ x ∈ r.wins, isNatValue x)
  ∧ (∀ x ∈ r.losses, isNatValue x)
  ∧ (∀ x ∈ r.games, isNatValue x)
  ∧ (∀ x ∈ r.win_rate, 0 ≤ x ∧ x ≤ 1)
  ∧ (∀ w ∈ r.wins, ∀ g ∈ r.games, w ≤ g)

/-- The claimed post-pipeline row invariant: the four statistics and
final_standing are present, win_rate lies in [0, 1], and wins, losses, games,
final_standing are nonnegative integers. -/
def rowInvariant (r : Row) : Prop :=
  (∃ n : ℕ, r.wins = some (n : ℚ))
  ∧ (∃ n : ℕ, r.losses = some (n : ℚ))
  ∧ (∃ n : ℕ, r.games = some (n : ℚ))
  ∧ (∃ n : ℕ, r.final_standing = some (n : ℚ))
  ∧ (∃ q : ℚ, r.win_rate = some q ∧ 0 ≤ q ∧ q ≤ 1)

/-- A fully zero row: the shape produced for a row whose Final Standing cell
was missing (zero-filled) in the uploaded data. -/
def sentinelRow : Row := ⟨"Zed", some 0, some 0, some 0, some 0, some 0, some 0, "", ""⟩

/-- A pinned row that is also rank 1 on the board. -/
def rankOneRow : Row :=
  ⟨"Alpha", some 1, some (92 / 100), some 23, some 2, some 25, some 2100, "", ""⟩

/-- A row as uploaded with a negative games count and explicit wins. -/
def negGamesRow : Row := ⟨"N", none, none, some 3, none, some (-5), none, "", ""⟩

theorem inferTable_eq_map (t : List Row) : inferTable t = t.map inferRow := by
  simp [inferTable, inferRow, List.map_map]

theorem fourStats_infer_spec (r : Row) :
    fourStats (inferRow r) = fourStats (specInferRow r) := by
  obtain ⟨p, fs, wr, w, l, g, mu, mo, pr⟩ := r
  cases w <;> cases l <;> cases g <;> cases wr <;>
    simp [inferRow, specInferRow, fillWins, fillLosses, fillGames,
      fillWinRate, zeroFillRow, zeroFillStats, fourStats]

theorem inferRow_idem (r : Row) : inferRow (inferRow r) = inferRow r := by
  obtain ⟨p, fs, wr, w, l, g, mu, mo, pr⟩ := r
  cases w <;> cases l <;> cases g <;> cases wr <;>
    simp [inferRow, fillWins, fillLosses, fillGames, fillWinRate, zeroFillRow]

/-- C1: the Statistic Inferencer fills wins, losses, games, win_rate in the
exact precedence order 1-5 described by the spec; in particular games=20,
win_rate=0.5 with wins and losses missing yields wins=10 and losses=10;
wins=7, losses=3 with games and win_rate missing yields games=10 and
win_rate=0.7; all four missing yields all four equal to 0. -/
theorem c1_inference_precedence :
    (∀ t : List Row, (inferTable t).map fourStats = t.map (fun r => fourStats (specInferRow r)))
    ∧ (inferTable [statRow none none (some 20) (some (1 / 2))]).map fourStats
        = [(some 10, some 10, some 20, some (1 / 2))]
    ∧ (inferTable [statRow (some 7) (some 3) none none]).map fourStats
        = [(some 7, some 3, some 10, some (7 / 10))]
    ∧ (inferTable [statRow none none none none]).map fourStats
        = [(some 0, some 0, some 0, some 0)] := by
  refine ?_
  have ev : ∀ w l g wr, inferTable [statRow w l g wr] = [inferRow (statRow w l g wr)] := by
    intro w l g wr
    rw [inferTable_eq_map]
    rfl
  refine ⟨?_, ?_, ?_, ?_⟩
  case refine_2 =>
    rw [ev]
    norm_num [inferRow, statRow, fillWins, fillLosses, fillGames, fillWinRate,
      zeroFillRow, fourStats, roundHalfEven, round_eq]
  case refine_3 =>
    rw [ev]
    norm_num [inferRow, statRow, fillWins, fillLosses, fillGames, fillWinRate,
      zeroFillRow, fourStats, roundHalfEven, round_eq]
  case refine_4 =>
    rw [ev]
    norm_num [inferRow, statRow, fillWins, fillLosses, fillGames, fillWinRate,
      zeroFillRow, fourStats, roundHalfEven, round_eq]
  intro t
  simp [inferTable_eq_map, List.map_map, Function.comp_def, fourStats_infer_spec]

/-- C9: the Inferencer is idempotent: applied to its own output it returns
that output unchanged. -/
theorem c9_inferencer_idempotent (t : List Row) :
    inferTable (inferTable t) = inferTable t := by
  simp [inferTable_eq_map, List.map_map, Function.comp_def, inferRow_idem]

/-- C8: the Inferencer never overwrites a field that was present in its input
row, even when present values are mutually inconsistent: every non-null input
cell among wins, losses, games, win_rate is identical in the output. -/
theorem c8_no_overwrite :
    (∀ t : List Row, inferTable t = t.map inferRow)
    ∧ ∀ (r : Row) (x : ℚ),
        (r.wins = some x → (inferRow r).wins = some x)
        ∧ (r.losses = some x → (inferRow r).losses = some x)
        ∧ (r.games = some x → (inferRow r).games = some x)
        ∧ (r.win_rate = some x → (inferRow r).win_rate = some x) := by
  refine ⟨inferTable_eq_map, ?_⟩
  intro r x
  obtain ⟨p, fs, wr, w, l, g, mu, mo, pr⟩ := r
  cases w <;> cases l <;> cases g <;> cases wr <;>
    simp [inferRow, fillWins, fillLosses, fillGames, fillWinRate, zeroFillRow] <;>
    split <;> simp_all

/-- Witness for C8 at a concrete, mutually inconsistent row: wins=7, losses=3,
games=9, win_rate=1/3 all survive unchanged. -/
theorem c8_no_overwrite_witness :
    (statRow (some 7) (some 3) (some 9) (some (1 / 3))).wins = some 7
    ∧ (inferRow (statRow (some 7) (some 3) (some 9) (some (1 / 3)))).wins = some 7 :=
  ⟨rfl, (c8_no_overwrite.2 (statRow (some 7) (some 3) (some 9) (some (1 / 3))) 7).1 rfl⟩

/-- C3 counterexample: the source classifier has no lower bound in rule 2, so
a row with final_standing = 0 (the no-data sentinel) receives the top-three
style, while the claim predicts no style for it. -/
theorem c3_counterexample :
    highlight_row "None" sentinelRow = Style.topThree
    ∧ specHighlight "None" sentinelRow = Style.noStyle
    ∧ Style.topThree ≠ Style.noStyle := by
  refine ⟨?_, ?_, by decide⟩ <;>
    norm_num [highlight_row, specHighlight, sentinelRow, truncQ]

/-- C3 amended: the classifier evaluates its rules first-match-wins per row,
with rule 2 being int(Final Standing) <= 3 and no exclusion of the 0
sentinel; rules 1, 3 and the default are as the claim states them. -/
theorem c3_highlight_amended (pin_choice : String) (row : Row) :
    (pin_choice ≠ "None" ∧ row.player = pin_choice →
      highlight_row pin_choice row = Style.pinned)
    ∧ (¬(pin_choice ≠ "None" ∧ row.player = pin_choice) →
      truncQ (row.final_standing.getD 0) ≤ 3 →
      highlight_row pin_choice row = Style.topThree)
    ∧ (¬(pin_choice ≠ "None" ∧ row.player = pin_choice) →
      ¬ truncQ (row.final_standing.getD 0) ≤ 3 →
      (4 / 5 : ℚ) ≤ row.win_rate.getD 0 →
      highlight_row pin_choice row = Style.highPerformer)
    ∧ (¬(pin_choice ≠ "None" ∧ row.player = pin_choice) →
      ¬ truncQ (row.final_standing.getD 0) ≤ 3 →
      ¬ (4 / 5 : ℚ) ≤ row.win_rate.getD 0 →
      highlight_row pin_choice row = Style.noStyle) := by
  unfold highlight_row
  refine ⟨fun h => ?_, fun h1 h2 => ?_, fun h1 h2 h3 => ?_, fun h1 h2 h3 => ?_⟩
  · rw [if_pos h]
  · rw [if_neg h1, if_pos h2]
  · rw [if_neg h1, if_neg h2, if_pos h3]
  · rw [if_neg h1, if_neg h2, if_neg h3]

/-- Witness for the amended C3: a pinned row that is also rank 1 gets the
pinned style, not the top-three style. -/
theorem c3_highlight_amended_witness :
    ("Alpha" ≠ "None" ∧ rankOneRow.player = "Alpha")
    ∧ highlight_row "Alpha" rankOneRow = Style.pinned :=
  ⟨by decide, (c3_highlight_amended "Alpha" rankOneRow).1 (by decide)⟩

/-- C5 counterexample: a row uploaded with games = 0 and win_rate = 1/2 keeps
its win_rate, so a games = 0 row can leave the Inferencer with a nonzero
win_rate. -/
theorem c5_counterexample :
    (inferRow (statRow none none (some 0) (some (1 / 2)))).games = some 0
    ∧ (inferRow (statRow none none (some 0) (some (1 / 2)))).win_rate = some (1 / 2)
    ∧ some ((1 : ℚ) / 2) ≠ some (0 : ℚ) := by
  refine ⟨?_, ?_, by norm_num⟩ <;>
    norm_num [inferRow, statRow, fillWins, fillLosses, fillGames, fillWinRate,
      zeroFillRow, roundHalfEven, round_eq]

/-- C5 amended: after the Inferencer, every row whose win_rate was missing on
input and whose games is 0 has win_rate = 0 (the guard of rule 4 leaves the
missing rate to the zero fill). -/
theorem c5_games_zero_sentinel (r : Row) (hwr : r.win_rate = none)
    (hg : (inferRow r).games = some 0) : (inferRow r).win_rate = some 0 := by
  obtain ⟨p, fs, wr, w, l, g, mu, mo, pr⟩ := r
  cases hwr
  cases w <;> cases l <;> cases g <;>
    simp_all [inferRow, fillWins, fillLosses, fillGames, fillWinRate, zeroFillRow] <;>
    split at hg <;> simp_all

/-- Witness for the amended C5: a row with games = 0 and everything else
missing leaves the Inferencer with win_rate = 0. -/
theorem c5_games_zero_sentinel_witness :
    (statRow none none (some 0) none).win_rate = none
    ∧ (inferRow (statRow none none (some 0) none)).games = some 0
    ∧ (inferRow (statRow none none (some 0) none)).win_rate = some 0 :=
  ⟨rfl, rfl, c5_games_zero_sentinel _ rfl rfl⟩

theorem sortTable_perm (k : SortKey) (t : List Row) : (sortTable k t).Perm t :=
  List.mergeSort_perm t (sortLe k)

theorem pinTable_perm (p : String) (t : List Row) : (pinTable p t).Perm t := by
  unfold pinTable
  split
  · exact List.Perm.refl t
  · exact List.filter_append_perm (fun r => r.player == p) t

theorem buildView_perm (k : SortKey) (p : String) (t : List Row) :
    (buildView k p t).Perm (inferTable (normalizeTable t)) :=
  (pinTable_perm p _).trans (sortTable_perm k _)

theorem totalGames_congr {t₁ t₂ : List Row} (h : t₁.Perm t₂) :
    totalGames t₁ = totalGames t₂ :=
  List.Perm.sum_eq (h.map _)

theorem totalWins_congr {t₁ t₂ : List Row} (h : t₁.Perm t₂) :
    totalWins t₁ = totalWins t₂ :=
  List.Perm.sum_eq (h.map _)

theorem avgWinRate_congr {t₁ t₂ : List Row} (h : t₁.Perm t₂) :
    avgWinRate t₁ = avgWinRate t₂ := by
  unfold avgWinRate
  rw [totalGames_congr h, totalWins_congr h]

theorem highWinRateCount_congr {t₁ t₂ : List Row} (h : t₁.Perm t₂) :
    highWinRateCount t₁ = highWinRateCount t₂ :=
  h.countP_eq _

/-- C10: the four summary KPIs do not depend on the sort-key or pin
selections: any two choices produce identical values on the same raw table. -/
theorem c10_summary_choice_independent (t : List Row) (k₁ k₂ : SortKey)
    (p₁ p₂ : String) :
    playersCount (buildView k₁ p₁ t) = playersCount (buildView k₂ p₂ t)
    ∧ totalGames (buildView k₁ p₁ t) = totalGames (buildView k₂ p₂ t)
    ∧ avgWinRate (buildView k₁ p₁ t) = avgWinRate (buildView k₂ p₂ t)
    ∧ highWinRateCount (buildView k₁ p₁ t) = highWinRateCount (buildView k₂ p₂ t) := by
  have h := (buildView_perm k₁ p₁ t).trans (buildView_perm k₂ p₂ t).symm
  exact ⟨h.length_eq, totalGames_congr h, avgWinRate_congr h, highWinRateCount_congr h⟩

/-- C7: a pin selection other than the no-pin sentinel moves every matching
row to the front in prior relative order, keeps the relative order of the
non-matching rows, and when nothing matches leaves the order unchanged. -/
theorem c7_pin_semantics (name : String) (t : List Row) (h : name ≠ "None") :
    pinTable name t
      = t.filter (fun r => r.player == name) ++ t.filter (fun r => r.player != name)
    ∧ (pinTable name t).Perm t
    ∧ (t.filter (fun r => r.player == name) = [] → pinTable name t = t) := by
  refine ⟨by rw [pinTable, if_neg h], pinTable_perm name t, fun hnil => ?_⟩
  rw [pinTable, if_neg h, hnil, List.nil_append]
  have hall := List.filter_eq_nil_iff.mp hnil
  apply List.filter_eq_self.mpr
  intro r hr
  simpa using hall r hr

/-- Witness for C7: pinning a name absent from the demo table leaves it
unchanged. -/
theorem c7_pin_semantics_witness :
    ("Ghost" : String) ≠ "None" ∧ pinTable "Ghost" demoTable = demoTable :=
  ⟨by decide, (c7_pin_semantics "Ghost" demoTable (by decide)).2.2 (by decide)⟩

/-- C6 counterexample: a row uploaded with games = -5 and wins = 3 reaches the
summary untouched, the games total is negative, and the code divides while the
claim requires 0 for a non-positive total. -/
theorem c6_counterexample :
    totalGames (buildView SortKey.finalStanding "None" [negGamesRow]) = -5
    ∧ avgWinRate (buildView SortKey.finalStanding "None" [negGamesRow]) = -(3 / 5)
    ∧ specAvgWinRate (buildView SortKey.finalStanding "None" [negGamesRow]) = 0
    ∧ (-(3 / 5) : ℚ) ≠ 0 := by
  have hb : buildView SortKey.finalStanding "None" [negGamesRow]
      = [inferRow (normalizeRow negGamesRow)] := by
    simp [buildView, sortTable, pinTable, normalizeTable, inferTable_eq_map]
  rw [hb]
  refine ⟨?_, ?_, ?_, by norm_num⟩ <;>
    norm_num [totalGames, totalWins, avgWinRate, specAvgWinRate, inferRow, normalizeRow,
      negGamesRow, fillWins, fillLosses, fillGames, fillWinRate, zeroFillRow]

/-- C6 amended: the Summary Calculator computes player count, total games,
the count of rows at or above win rate 0.8, and the average win rate as
sum(Wins)/sum(Games) whenever sum(Games) is nonzero and 0 when it is zero
(division by zero guarded); on the demo pipeline the four KPIs are 5, 125,
4/5 and 3. -/
theorem c6_summary_amended :
    (∀ t : List Row,
      playersCount t = t.length
      ∧ totalGames t = (t.map (fun r => r.games.getD 0)).sum
      ∧ avgWinRate t = specAvgWinRateAmended t
      ∧ highWinRateCount t = t.countP (fun r => decide ((4 / 5 : ℚ) ≤ r.win_rate.getD 0)))
    ∧ playersCount (buildView SortKey.finalStanding "None" demoTable) = 5
    ∧ totalGames (buildView SortKey.finalStanding "None" demoTable) = 125
    ∧ avgWinRate (buildView SortKey.finalStanding "None" demoTable) = 4 / 5
    ∧ highWinRateCount (buildView SortKey.finalStanding "None" demoTable) = 3 := by
  have hperm := buildView_perm SortKey.finalStanding "None" demoTable
  refine ⟨fun t => ⟨rfl, rfl, ?_, rfl⟩, ?_, ?_, ?_, ?_⟩
  · by_cases h : totalGames t = 0 <;> simp [avgWinRate, specAvgWinRateAmended, h]
  · rw [show playersCount (buildView SortKey.finalStanding "None" demoTable)
        = playersCount (inferTable (normalizeTable demoTable)) from hperm.length_eq]
    simp [playersCount, inferTable_eq_map, normalizeTable, demoTable]
  · rw [totalGames_congr hperm]
    norm_num [totalGames, inferTable_eq_map, normalizeTable, demoTable, inferRow,
      normalizeRow, fillWins, fillLosses, fillGames, fillWinRate, zeroFillRow,
      roundHalfEven, round_eq]
  · rw [avgWinRate_congr hperm]
    norm_num [avgWinRate, totalGames, totalWins, inferTable_eq_map, normalizeTable,
      demoTable, inferRow, normalizeRow, fillWins, fillLosses, fillGames, fillWinRate,
      zeroFillRow, roundHalfEven, round_eq]
  · rw [highWinRateCount_congr hperm]
    norm_num [highWinRateCount, inferTable_eq_map, normalizeTable, demoTable, inferRow,
      normalizeRow, fillWins, fillLosses, fillGames, fillWinRate, zeroFillRow,
      roundHalfEven, round_eq, List.countP_cons]

theorem sortLe_trans (k : SortKey) : ∀ a b c : Row,
    sortLe k a b → sortLe k b c → sortLe k a c := by
  intro a b c
  unfold sortLe
  split <;> simp only [decide_eq_true_eq] <;> intro h1 h2
  · exact le_trans h1 h2
  · exact le_trans h2 h1

theorem sortLe_total (k : SortKey) : ∀ a b : Row, sortLe k a b || sortLe k b a := by
  intro a b
  unfold sortLe
  split <;> simp only [Bool.or_eq_true, decide_eq_true_eq] <;> exact le_total _ _

theorem sortAscending_iff (k : SortKey) :
    sortAscending k = true ↔ (k = SortKey.finalStanding ∨ k = SortKey.losses) := by
  cases k <;> simp [sortAscending]

theorem sortTable_filter_stable (k : SortKey) (t : List Row) (q : ℚ) :
    (sortTable k t).filter (fun r => decide (sortKeyValue k r = q))
      = t.filter (fun r => decide (sortKeyValue k r = q)) := by
  have hpw : (t.filter (fun r => decide (sortKeyValue k r = q))).Pairwise
      (fun a b => sortLe k a b = true) := by
    apply List.pairwise_of_forall_mem_list
    intro a ha b hb
    have ha' := List.of_mem_filter ha
    have hb' := List.of_mem_filter hb
    simp only [decide_eq_true_eq] at ha' hb'
    unfold sortLe
    split <;> simp [ha', hb']
  have hsub : List.Sublist (t.filter (fun r => decide (sortKeyValue k r = q))) (sortTable k t) :=
    List.sublist_mergeSort (sortLe_trans k) (sortLe_total k) hpw (List.filter_sublist t)
  have hsub2 : List.Sublist (t.filter (fun r => decide (sortKeyValue k r = q)))
      ((sortTable k t).filter (fun r => decide (sortKeyValue k r = q))) := by
    simpa using hsub.filter (fun r => decide (sortKeyValue k r = q))
  refine (hsub2.eq_of_length ?_).symm
  rw [← List.countP_eq_length_filter, ← List.countP_eq_length_filter]
  exact ((sortTable_perm k t).countP_eq _).symm

/-- C4: the claimed property — ascending order exactly for Final Standing and
Losses, descending for every other key, and rows tying on the key retaining
their pre-sort relative order — holds of the sort with the tie order the spec
prescribes, i.e. line 102 repaired with kind="stable".  The shipped default
kind="quicksort" honors the direction and permutation conjuncts but leaves
tie order implementation defined beyond the introsort cutoff, which is the
code bug recorded for this claim: the stability conjunct here documents the
intended behavior, not a guarantee of the shipped default. -/
theorem c4_sort_direction_and_stability (k : SortKey) (t : List Row) :
    (sortTable k t).Perm t
    ∧ (sortTable k t).Pairwise (fun a b =>
        if k = SortKey.finalStanding ∨ k = SortKey.losses
        then sortKeyValue k a ≤ sortKeyValue k b
        else sortKeyValue k b ≤ sortKeyValue k a)
    ∧ ∀ q : ℚ, (sortTable k t).filter (fun r => decide (sortKeyValue k r = q))
        = t.filter (fun r => decide (sortKeyValue k r = q)) := by
  refine ⟨sortTable_perm k t, ?_, sortTable_filter_stable k t⟩
  have hs := List.sorted_mergeSort (sortLe_trans k) (sortLe_total k) t
  refine hs.imp ?_
  intro a b hab
  by_cases hk : k = SortKey.finalStanding ∨ k = SortKey.losses
  · rw [if_pos hk]
    have ha : sortAscending k = true := (sortAscending_iff k).mpr hk
    simpa [sortLe, ha] using hab
  · rw [if_neg hk]
    have ha : sortAscending k = false := by
      cases hsa : sortAscending k
      · rfl
      · exact absurd ((sortAscending_iff k).mp hsa) hk
    simpa [sortLe, ha] using hab

theorem roundHalfEven_nonneg {q : ℚ} (h : 0 ≤ q) : 0 ≤ roundHalfEven q := by
  unfold roundHalfEven
  have hf : (0 : ℤ) ≤ ⌊q⌋ := Int.le_floor.mpr (by exact_mod_cast h)
  split
  · split <;> omega
  · rw [round_eq]
    exact Int.le_floor.mpr (by push_cast; linarith)

theorem roundHalfEven_le {q : ℚ} {n : ℤ} (h : q ≤ (n : ℚ)) : roundHalfEven q ≤ n := by
  unfold roundHalfEven
  split
  · rename_i htie
    have hq : q = (⌊q⌋ : ℚ) + 1 / 2 := by linarith
    have hlt : ((⌊q⌋ : ℤ) : ℚ) < (n : ℚ) := by rw [hq] at h; linarith
    have hzn : ⌊q⌋ < n := by exact_mod_cast hlt
    split <;> omega
  · rw [round_eq]
    have : ⌊q + 1 / 2⌋ < n + 1 := Int.floor_lt.mpr (by push_cast; linarith)
    omega

theorem isNatValue_nonneg {a : ℚ} (h : isNatValue a) : 0 ≤ a := by
  obtain ⟨n, rfl⟩ := h
  exact Nat.cast_nonneg n

theorem isNatValue_add {a b : ℚ} (ha : isNatValue a) (hb : isNatValue b) :
    isNatValue (a + b) := by
  obtain ⟨m, rfl⟩ := ha
  obtain ⟨n, rfl⟩ := hb
  exact ⟨m + n, by push_cast; ring⟩

theorem isNatValue_sub {a b : ℚ} (ha : isNatValue a) (hb : isNatValue b) (h : b ≤ a) :
    isNatValue (a - b) := by
  obtain ⟨m, rfl⟩ := ha
  obtain ⟨n, rfl⟩ := hb
  have hnm : n ≤ m := by exact_mod_cast h
  exact ⟨m - n, by push_cast [hnm]; ring⟩

theorem isNatValue_intCast {z : ℤ} (h : 0 ≤ z) : isNatValue ((z : ℤ) : ℚ) :=
  ⟨z.toNat, by exact_mod_cast (Int.toNat_of_nonneg h).symm⟩

theorem midInv_normalize {r : Row} (h : isCleanRow r) : midInv (normalizeRow r) := by
  obtain ⟨hfs, hw, hl, hg, hwr, hwg⟩ := h
  refine ⟨hfs, hw, hl, hg, ?_, hwg⟩
  intro x hx
  cases hrw : r.win_rate with
  | none => simp [normalizeRow, hrw] at hx
  | some y =>
    obtain ⟨hy0, hy100⟩ := hwr y (by simp [hrw])
    simp only [normalizeRow, hrw, Option.map_some', Option.mem_def, Option.some.injEq] at hx
    subst hx
    split_ifs with h1
    · constructor
      · positivity
      · rw [div_le_one (by norm_num)]
        exact hy100
    · exact ⟨hy0, le_of_not_lt h1⟩

theorem midInv_fillWins {r : Row} (h : midInv r) : midInv (fillWins r) := by
  obtain ⟨hfs, hw, hl, hg, hwr, hwg⟩ := h
  unfold fillWins
  split
  · rename_i g wr hweq hgeq hwreq
    obtain ⟨m, hm⟩ := hg g (by simp [hgeq])
    obtain ⟨hwr0, hwr1⟩ := hwr wr (by simp [hwreq])
    have hg0 : 0 ≤ g := hm ▸ Nat.cast_nonneg m
    have hprod0 : 0 ≤ g * wr := mul_nonneg hg0 hwr0
    have hprodle : g * wr ≤ ((m : ℤ) : ℚ) := by
      push_cast
      rw [← hm]
      exact mul_le_of_le_one_right hg0 hwr1
    have hval : isNatValue ((roundHalfEven (g * wr) : ℤ) : ℚ) :=
      isNatValue_intCast (roundHalfEven_nonneg hprod0)
    refine ⟨hfs, ?_, hl, hg, hwr, ?_⟩
    · intro x hx
      simp only [Option.mem_def, Option.some.injEq] at hx
      subst hx
      exact hval
    · intro w hwmem g' hg'mem
      simp only [Option.mem_def, Option.some.injEq] at hwmem
      subst hwmem
      simp only [hgeq, Option.mem_def, Option.some.injEq] at hg'mem
      subst hg'mem
      have hle : roundHalfEven (g * wr) ≤ (m : ℤ) := roundHalfEven_le hprodle
      calc ((roundHalfEven (g * wr) : ℤ) : ℚ) ≤ ((m : ℤ) : ℚ) := by exact_mod_cast hle
        _ = g := by rw [hm]; push_cast; ring
  · exact ⟨hfs, hw, hl, hg, hwr, hwg⟩

theorem midInv_fillLosses {r : Row} (h : midInv r) : midInv (fillLosses r) := by
  obtain ⟨hfs, hw, hl, hg, hwr, hwg⟩ := h
  unfold fillLosses
  split
  · rename_i g w hleq hgeq hweq
    have hwn := hw w (by simp [hweq])
    have hgn := hg g (by simp [hgeq])
    have hle : w ≤ g := hwg w (by simp [hweq]) g (by simp [hgeq])
    refine ⟨hfs, hw, ?_, hg, hwr, hwg⟩
    intro x hx
    simp only [Option.mem_def, Option.some.injEq] at hx
    subst hx
    exact isNatValue_sub hgn hwn hle
  · exact ⟨hfs, hw, hl, hg, hwr, hwg⟩

theorem midInv_fillGames {r : Row} (h : midInv r) : midInv (fillGames r) := by
  obtain ⟨hfs, hw, hl, hg, hwr, hwg⟩ := h
  unfold fillGames
  split
  · rename_i w l hgeq hweq hleq
    have hwn := hw w (by simp [hweq])
    have hln := hl l (by simp [hleq])
    refine ⟨hfs, hw, hl, ?_, hwr, ?_⟩
    · intro x hx
      simp only [Option.mem_def, Option.some.injEq] at hx
      subst hx
      exact isNatValue_add hwn hln
    · intro w' hw'mem g' hg'mem
      simp only [hweq, Option.mem_def, Option.some.injEq] at hw'mem
      subst hw'mem
      simp only [Option.mem_def, Option.some.injEq] at hg'mem
      subst hg'mem
      have := isNatValue_nonneg hln
      linarith
  · exact ⟨hfs, hw, hl, hg, hwr, hwg⟩

theorem midInv_fillWinRate {r : Row} (h : midInv r) : midInv (fillWinRate r) := by
  obtain ⟨hfs, hw, hl, hg, hwr, hwg⟩ := h
  unfold fillWinRate
  split
  · rename_i w g hwreq hweq hgeq
    split
    · rename_i hgpos
      have hwn := hw w (by simp [hweq])
      have hle : w ≤ g := hwg w (by simp [hweq]) g (by simp [hgeq])
      refine ⟨hfs, hw, hl, hg, ?_, hwg⟩
      intro x hx
      simp only [Option.mem_def, Option.some.injEq] at hx
      subst hx
      constructor
      · exact div_nonneg (isNatValue_nonneg hwn) (le_of_lt hgpos)
      · rw [div_le_one hgpos]
        exact hle
    · exact ⟨hfs, hw, hl, hg, hwr, hwg⟩
  · exact ⟨hfs, hw, hl, hg, hwr, hwg⟩

theorem rowInvariant_zeroFill {r : Row} (h : midInv r) : rowInvariant (zeroFillRow r) := by
  obtain ⟨hfs, hw, hl, hg, hwr, hwg⟩ := h
  refine ⟨?_, ?_, ?_, ?_, ?_⟩
  · cases hx : r.wins with
    | none => exact ⟨0, by simp [zeroFillRow, hx]⟩
    | some x =>
      obtain ⟨n, hn⟩ := hw x (by simp [hx])
      exact ⟨n, by simp [zeroFillRow, hx, hn]⟩
  · cases hx : r.losses with
    | none => exact ⟨0, by simp [zeroFillRow, hx]⟩
    | some x =>
      obtain ⟨n, hn⟩ := hl x (by simp [hx])
      exact ⟨n, by simp [zeroFillRow, hx, hn]⟩
  · cases hx : r.games with
    | none => exact ⟨0, by simp [zeroFillRow, hx]⟩
    | some x =>
      obtain ⟨n, hn⟩ := hg x (by simp [hx])
      exact ⟨n, by simp [zeroFillRow, hx, hn]⟩
  · cases hx : r.final_standing with
    | none => exact ⟨0, by simp [zeroFillRow, hx]⟩
    | some x =>
      obtain ⟨n, hn⟩ := hfs x (by simp [hx])
      exact ⟨n, by simp [zeroFillRow, hx, hn]⟩
  · cases hx : r.win_rate with
    | none => exact ⟨0, by simp [zeroFillRow, hx], le_refl 0, by norm_num⟩
    | some x =>
      obtain ⟨h0, h1⟩ := hwr x (by simp [hx])
      exact ⟨x, by simp [zeroFillRow, hx], h0, h1⟩

/-- C2 counterexample: the pipeline enforces no range or integrality on cells
that arrive present: an uploaded wins = -3 passes through; an uploaded
win_rate = 150 is rescaled only once to 1.5, above 1; and with games = 20 the
rescaled 1.5 rate yields wins = 30 and losses = -10. -/
theorem c2_counterexample :
    (inferRow (normalizeRow (statRow (some (-3)) none none none))).wins = some (-3)
    ∧ ¬ isNatValue (-3 : ℚ)
    ∧ ¬ rowInvariant (inferRow (normalizeRow (statRow (some (-3)) none none none)))
    ∧ (inferRow (normalizeRow (statRow none none (some 20) (some 150)))).win_rate
        = some (3 / 2)
    ∧ ¬ ((3 / 2 : ℚ) ≤ 1)
    ∧ (inferRow (normalizeRow (statRow none none (some 20) (some 150)))).losses
        = some (-10)
    ∧ inferTable (normalizeTable [statRow (some (-3)) none none none])
        = [inferRow (normalizeRow (statRow (some (-3)) none none none))] := by
  refine ⟨?_, ?_, ?_, ?_, by norm_num, ?_, rfl⟩
  · norm_num [inferRow, normalizeRow, statRow, fillWins, fillLosses, fillGames,
      fillWinRate, zeroFillRow]
  · rintro ⟨n, hn⟩
    have h0 : (0 : ℚ) ≤ -3 := hn ▸ Nat.cast_nonneg n
    norm_num at h0
  · intro hinv
    obtain ⟨⟨n, hn⟩, -, -, -, -⟩ := hinv
    have hw : (inferRow (normalizeRow (statRow (some (-3)) none none none))).wins
        = some (-3) := by
      norm_num [inferRow, normalizeRow, statRow, fillWins, fillLosses, fillGames,
        fillWinRate, zeroFillRow]
    rw [hw] at hn
    have : (-3 : ℚ) = (n : ℚ) := by simpa using hn
    have h0 : (0 : ℚ) ≤ -3 := this ▸ Nat.cast_nonneg n
    norm_num at h0
  · norm_num [inferRow, normalizeRow, statRow, fillWins, fillLosses, fillGames,
      fillWinRate, zeroFillRow, roundHalfEven, round_eq]
  · norm_num [inferRow, normalizeRow, statRow, fillWins, fillLosses, fillGames,
      fillWinRate, zeroFillRow, roundHalfEven, round_eq]

/-- C2 amended: for every input table all of whose rows are sane (present
wins, losses, games, final_standing cells nonnegative integers, present
win_rate in [0, 100], and wins ≤ games when both present), every row produced
by the Normalizer followed by the Inferencer has win_rate in [0, 1] and
nonnegative integer wins, losses, games and final_standing, all present. -/
theorem c2_pipeline_invariant (t : List Row) (h : ∀ r ∈ t, isCleanRow r) :
    ∀ r' ∈ inferTable (normalizeTable t), rowInvariant r' := by
  intro r' hr'
  rw [inferTable_eq_map, normalizeTable, List.map_map] at hr'
  obtain ⟨r, hr, rfl⟩ := List.mem_map.mp hr'
  exact rowInvariant_zeroFill (midInv_fillWinRate (midInv_fillGames (midInv_fillLosses
    (midInv_fillWins (midInv_normalize (h r hr))))))

/-- Witness for the amended C2: a clean single-row table with wins = 7 and
losses = 3 satisfies the post-pipeline invariant on its produced row. -/
theorem c2_pipeline_invariant_witness :
    rowInvariant (inferRow (normalizeRow (statRow (some 7) (some 3) none none))) := by
  apply c2_pipeline_invariant [statRow (some 7) (some 3) none none]
  · intro r hr
    have hreq : r = statRow (some 7) (some 3) none none := List.mem_singleton.mp hr
    subst hreq
    refine ⟨by simp [statRow], ?_, ?_, by simp [statRow], by simp [statRow], by simp [statRow]⟩
    · intro x hx
      simp only [statRow, Option.mem_def, Option.some.injEq] at hx
      subst hx
      exact ⟨7, by norm_num⟩
    · intro x hx
      simp only [statRow, Option.mem_def, Option.some.injEq] at hx
      subst hx
      exact ⟨3, by norm_num⟩
  · exact List.mem_singleton.mpr rfl

end App
